import Mathlib

/-!
Verification of `oneLedWatch.py` (one-LED watch for the Raspberry Pi Pico).

The development shallowly embeds the program:
* the global clock variables `hour`, `minute`, `second`, `ampm` become the
  structure `ClockState`, and the timer callback `tick` becomes a pure
  function on that structure;
* the LED side effects of `flash_group` / `display_time` become lists of
  primitive `Action`s (`led.value(v)` and the millisecond sleeps);
* the `button_handler` interrupt becomes a pure function of the re-sampled
  line level and the previous flag value;
* the `main` scheduler loop becomes a small transition system whose phases
  correspond to the regions of the loop body (idle polling, playback,
  waiting for button release).
-/

namespace OneLedWatch

/-- The global clock variables of `oneLedWatch.py` (lines 29-32):
`hour`, `minute`, `second` and `ampm` (0 = AM, 1 = PM, embedded as `Bool`
with `false` = AM). -/
structure ClockState where
  hour : Nat
  minute : Nat
  second : Nat
  ampm : Bool
deriving DecidableEq, Repr

/-- The configured start time of the program: `hour = 5`, `minute = 43`,
`second = 0`, `ampm = 0` (AM), from lines 29-32 of the source. -/
def initState : ClockState := ⟨5, 43, 0, false⟩

/-- The timer callback `tick` (lines 66-81): increment `second`; on reaching
60 reset it and increment `minute`; on `minute` reaching 60 reset it and
increment `hour`, wrapping 13 to 1; toggle `ampm` exactly when the hour moved
from 11 to 12. -/
def tick (s : ClockState) : ClockState :=
  let second := s.second + 1
  if second ≥ 60 then
    let minute := s.minute + 1
    if minute ≥ 60 then
      let old_hour := s.hour
      let hour0 := s.hour + 1
      let hour := if hour0 > 12 then 1 else hour0
      let ampm := if old_hour = 11 ∧ hour = 12 then !s.ampm else s.ampm
      ⟨hour, 0, 0, ampm⟩
    else
      ⟨s.hour, minute, 0, s.ampm⟩
  else
    ⟨s.hour, s.minute, second, s.ampm⟩

/-- A `ClockState` is a valid 12-hour wall-clock instant:
`second ∈ [0,59]`, `minute ∈ [0,59]`, `hour ∈ [1,12]` (the `ampm` field is a
`Bool`, hence always one of AM/PM). -/
def ClockState.Valid (s : ClockState) : Prop :=
  s.second ≤ 59 ∧ s.minute ≤ 59 ∧ 1 ≤ s.hour ∧ s.hour ≤ 12

instance (s : ClockState) : Decidable s.Valid := by
  unfold ClockState.Valid; infer_instance

/-- A primitive observable effect of the display code: a write to the LED
pin (`led.value(v)`, with `v ∈ {0,1}` in the source) or a sleep of the given
number of milliseconds (`asyncio.sleep_ms`; the one-second pauses written
`asyncio.sleep(1)` appear as `sleepMs 1000`). -/
inductive Action where
  | ledValue : Nat → Action
  | sleepMs : Nat → Action
deriving DecidableEq, Repr

/-- The effect trace of `flash_group(count, on_time, off_time)`
(lines 109-116): for each `i` in `range(count)`, switch the LED on, sleep
`on_time`, switch it off, and sleep `off_time` only when `i < count - 1`. -/
def flash_group (count on_time off_time : Nat) : List Action :=
  ((List.range count).map fun i =>
    [Action.ledValue 1, Action.sleepMs on_time, Action.ledValue 0] ++
      (if i < count - 1 then [Action.sleepMs off_time] else [])).flatten

/-- The effect trace of `display_time(h, m)` (lines 89-107): the hour group
(`h` pulses, 1000ms on / 500ms off) followed by a 1s pause when `h > 0`; the
quarter group (`m / 15` pulses, 500ms on / 500ms off) followed by a 1s pause
when its count is positive; the remainder group (`m % 15` pulses, 250ms on /
500ms off) with no pause, when its count is positive. -/
def display_time (h m : Nat) : List Action :=
  (if h > 0 then flash_group h 1000 500 ++ [Action.sleepMs 1000] else []) ++
  ((let quarters := m / 15
    if quarters > 0 then flash_group quarters 500 500 ++ [Action.sleepMs 1000]
    else []) ++
   (let minutes_mod := m % 15
    if minutes_mod > 0 then flash_group minutes_mod 250 500 else []))

/-- The trace of a single LED pulse of duration `t` ms: on, sleep, off. -/
def pulseActs (t : Nat) : List Action :=
  [Action.ledValue 1, Action.sleepMs t, Action.ledValue 0]

/-- Number of pulses in a trace: the number of `led.value(1)` writes. -/
def countPulses (l : List Action) : Nat :=
  l.count (Action.ledValue 1)

/-- LED level after running a trace from level `v`: each `led.value(w)`
overwrites the level, sleeps leave it alone. -/
def ledAfter (l : List Action) (v : Nat) : Nat :=
  l.foldl (fun st a => match a with | .ledValue w => w | .sleepMs _ => st) v

/-- Outcome of one invocation of the button interrupt handler: the fixed
debounce delay it performed and the value of the `button_pressed` flag
afterwards.  The handler touches no other program state. -/
structure ButtonIrqResult where
  delayMs : Nat
  pressed : Bool
deriving DecidableEq, Repr

/-- `button_handler(pin)` (lines 52-57): sleep 20ms, re-sample the line, and
set `button_pressed` when the re-sampled level is 0 (asserted, the line has a
pull-up).  `lineLevel` is `pin.value()` at the re-sample and `button_pressed`
the flag's previous value; the flag is never cleared by the handler. -/
def button_handler (lineLevel : Nat) (button_pressed : Bool) : ButtonIrqResult :=
  { delayMs := 20
    pressed := if lineLevel = 0 then true else button_pressed }

/-- The phases of the `main` loop (lines 127-150): `idle` is the polling
wait, `servicing` the region from clearing the flag through
`display_time`, `awaitRelease` the release-wait plus 50ms settle before the
IRQ is re-registered. -/
inductive Phase where
  | idle
  | servicing
  | awaitRelease
deriving DecidableEq, Repr

/-- The scheduler-visible state of `main`: the current loop phase, whether
the button IRQ is registered, the `button_pressed` flag, and the number of
completed `display_time` playbacks. -/
structure SchedState where
  phase : Phase
  irqEnabled : Bool
  button_pressed : Bool
  displays : Nat
deriving DecidableEq, Repr

/-- Startup state: the loop is idle, the IRQ was registered at line 59, the
flag is clear, no display has run. -/
def schedInit : SchedState := ⟨Phase.idle, true, false, 0⟩

/-- A falling edge on the button line (with the line still low at the
20ms re-sample): when the IRQ is registered, `button_handler` sets
`button_pressed`; when `button.irq(handler=None)` is in effect (line 133)
the edge is invisible and nothing happens. -/
def pressEvent (s : SchedState) : SchedState :=
  if s.irqEnabled then ⟨s.phase, s.irqEnabled, true, s.displays⟩ else s

/-- One scheduler step of `main`:
* `idle` with the flag set (line 129): clear the flag (line 130), unregister
  the IRQ (line 133) and enter playback; with the flag clear, keep polling;
* `servicing`: run `display_time` to completion (line 139) and move on to
  the release wait;
* `awaitRelease`: after the line reads released and the 50ms settle
  (lines 142-144), re-register the IRQ (line 147) and return to idle. -/
def schedStep (s : SchedState) : SchedState :=
  match s.phase with
  | Phase.idle =>
      if s.button_pressed then ⟨Phase.servicing, false, false, s.displays⟩
      else s
  | Phase.servicing =>
      ⟨Phase.awaitRelease, s.irqEnabled, s.button_pressed, s.displays + 1⟩
  | Phase.awaitRelease =>
      ⟨Phase.idle, true, s.button_pressed, s.displays⟩

/-- An event visible to the scheduler state: a debounced falling edge on the
button line, or one scheduler step. -/
inductive Event where
  | press
  | step
deriving DecidableEq, Repr

/-- Apply one event to the scheduler state. -/
def schedExec (s : SchedState) (e : Event) : SchedState :=
  match e with
  | Event.press => pressEvent s
  | Event.step => schedStep s

/-- Run a sequence of events from the startup state. -/
def schedRun (es : List Event) : SchedState :=
  es.foldl schedExec schedInit

/-- Accounting measure for the scheduler: completed displays, plus one for a
pending request, plus one for a playback in progress.  Presses raise it by
at most one and scheduler steps never raise it. -/
def potential (s : SchedState) : Nat :=
  s.displays + (if s.button_pressed then 1 else 0) +
    (if s.phase = Phase.servicing then 1 else 0)

/-- Unrolling the loop of `flash_group`: a group of `n + 1` pulses is `n`
copies of "pulse then off-sleep" followed by one final bare pulse. -/
theorem flash_group_succ (n t u : Nat) :
    flash_group (n + 1) t u =
      (List.replicate n (pulseActs t ++ [Action.sleepMs u])).flatten
        ++ pulseActs t := by
  unfold flash_group
  rw [List.range_succ, List.map_append, List.flatten_append]
  have hmap : (List.range n).map
      (fun i => [Action.ledValue 1, Action.sleepMs t, Action.ledValue 0] ++
        (if i < n + 1 - 1 then [Action.sleepMs u] else [])) =
      List.replicate n (pulseActs t ++ [Action.sleepMs u]) := by
    refine List.eq_replicate_iff.mpr ⟨by simp, ?_⟩
    intro b hb
    simp only [List.mem_map, List.mem_range] at hb
    obtain ⟨i, hi, rfl⟩ := hb
    simp [pulseActs, hi]
  rw [hmap]
  simp [pulseActs]

/-- Counting an action inside `n` flattened copies of a block. -/
theorem count_flatten_replicate (n : Nat) (blk : List Action) (a : Action) :
    ((List.replicate n blk).flatten).count a = n * blk.count a := by
  induction n with
  | zero => simp
  | succ k ih =>
      simp only [List.replicate_succ, List.flatten_cons, List.count_append, ih]
      ring

/-- `ledAfter` splits over concatenation of traces. -/
theorem ledAfter_append (l₁ l₂ : List Action) (v : Nat) :
    ledAfter (l₁ ++ l₂) v = ledAfter l₂ (ledAfter l₁ v) := by
  unfold ledAfter
  simp [List.foldl_append]

/-- `ledAfter` ignores a leading sleep. -/
theorem ledAfter_cons_sleep (t : Nat) (l : List Action) (v : Nat) :
    ledAfter (Action.sleepMs t :: l) v = ledAfter l v := rfl

/-- `ledAfter` on the empty trace is the initial level. -/
theorem ledAfter_nil (v : Nat) : ledAfter [] v = v := rfl

/-- A pulse group leaves the LED off when it is nonempty, and leaves the
level alone when it is empty. -/
theorem ledAfter_flash_group (c t u v : Nat) :
    ledAfter (flash_group c t u) v = if c = 0 then v else 0 := by
  cases c with
  | zero => rfl
  | succ n =>
      rw [flash_group_succ, ledAfter_append, if_neg (Nat.succ_ne_zero n)]
      rfl

/-- C1 (counterexample): at `hour = 5, minute = 0` the display trace is the
hour group *followed by a trailing 1000ms pause* — the pause after the hour
group is emitted whenever `h > 0` (line 95), regardless of whether any later
group follows — so the claim's "no trailing 1000ms pause" is false. -/
theorem display_time_minute_zero_has_trailing_pause :
    display_time 5 0 = flash_group 5 1000 500 ++ [Action.sleepMs 1000] ∧
    display_time 5 0 ≠ flash_group 5 1000 500 ∧
    (display_time 5 0).getLast? = some (Action.sleepMs 1000) := by
  decide

/-- C1 (amended): for every hour `h ∈ [1,12]`, displaying `(h, minute = 0)`
emits exactly one group — `h` pulses of 1000ms on with 500ms off between
pulses — followed by a trailing 1000ms pause; the zero-count quarter and
remainder groups are skipped together with their pauses, but the pause after
the hour group is emitted because the hour group itself was emitted. -/
theorem display_time_minute_zero_eq_hour_group_pause (h : Nat)
    (h1 : 1 ≤ h) (_h12 : h ≤ 12) :
    display_time h 0 = flash_group h 1000 500 ++ [Action.sleepMs 1000] := by
  have h0 : h > 0 := h1
  unfold display_time
  simp [h0]

/-- C1 (witness): the amended statement at `hour = 12`. -/
theorem display_time_minute_zero_eq_hour_group_pause_witness :
    display_time 12 0 = flash_group 12 1000 500 ++ [Action.sleepMs 1000] :=
  display_time_minute_zero_eq_hour_group_pause 12 (by decide) (by decide)

/-- C3: `display_time 1 37` is the hour group (1 pulse of 1000ms), a 1000ms
pause, the quarter group (2 pulses, 500ms on / 500ms off), a 1000ms pause,
and the remainder group (7 pulses, 250ms on / 500ms off); there is no
trailing pause (the trace ends with the LED-off write of the last pulse) and
the total pulse count is 10. -/
theorem display_time_1_37_structure :
    display_time 1 37 =
      flash_group 1 1000 500 ++ [Action.sleepMs 1000] ++
        (flash_group 2 500 500 ++ [Action.sleepMs 1000] ++
          flash_group 7 250 500) ∧
    (display_time 1 37).getLast? = some (Action.ledValue 0) ∧
    countPulses (display_time 1 37) = 10 := by
  decide

/-- C5: from any valid state with `second ≤ 58`, one `tick` increments
`second` by exactly 1 and leaves `minute`, `hour` and `ampm` unchanged. -/
theorem tick_second_le58_frame (s : ClockState) (_hv : s.Valid)
    (h58 : s.second ≤ 58) :
    (tick s).second = s.second + 1 ∧ (tick s).minute = s.minute ∧
    (tick s).hour = s.hour ∧ (tick s).ampm = s.ampm := by
  have hlt : ¬ (s.second + 1 ≥ 60) := by omega
  unfold tick
  simp [hlt]

/-- C5 (witness): the frame property at the configured start state. -/
theorem tick_second_le58_frame_witness :
    (tick initState).second = initState.second + 1 ∧
    (tick initState).minute = initState.minute ∧
    (tick initState).hour = initState.hour ∧
    (tick initState).ampm = initState.ampm :=
  tick_second_le58_frame initState (by decide) (by decide)

/-- C6: in a group of `count ≥ 1` pulses, the off-sleep appears only between
consecutive pulses — the trace is `count - 1` copies of "pulse then
off-sleep" followed by one final pulse with nothing after it — and the group
contains exactly `count` pulses, hence exactly `count - 1` off-intervals. -/
theorem flash_group_off_between_pulses (c t u : Nat) (hc : 1 ≤ c) :
    flash_group c t u =
      (List.replicate (c - 1) (pulseActs t ++ [Action.sleepMs u])).flatten
        ++ pulseActs t ∧
    countPulses (flash_group c t u) = c := by
  cases c with
  | zero => exact absurd hc (by decide)
  | succ n =>
      refine ⟨by simpa using flash_group_succ n t u, ?_⟩
      rw [countPulses, flash_group_succ, List.count_append,
        count_flatten_replicate]
      simp [pulseActs]

/-- C6 (witness): the between-pulses structure at a 3-pulse group with the
remainder-group timings. -/
theorem flash_group_off_between_pulses_witness :
    flash_group 3 250 500 =
      (List.replicate 2 (pulseActs 250 ++ [Action.sleepMs 500])).flatten
        ++ pulseActs 250 ∧
    countPulses (flash_group 3 250 500) = 3 :=
  flash_group_off_between_pulses 3 250 500 (by decide)

/-- C7: the validity predicate (`second ∈ [0,59]`, `minute ∈ [0,59]`,
`hour ∈ [1,12]`, `ampm` a boolean) holds for the configured initial state and
is preserved by every `tick`; in particular `hour` is never 0 in a reachable
state. -/
theorem valid_init_and_tick_preserves :
    initState.Valid ∧ ∀ s : ClockState, s.Valid → (tick s).Valid := by
  refine ⟨by decide, ?_⟩
  intro s hv
  obtain ⟨h1, h2, h3, h4⟩ := hv
  unfold tick ClockState.Valid
  by_cases c1 : s.second + 1 ≥ 60 <;> by_cases c2 : s.minute + 1 ≥ 60 <;>
    by_cases c3 : s.hour + 1 > 12 <;> simp [c1, c2, c3] <;> omega

/-- C7 (witness): validity is preserved across a tick of the start state. -/
theorem valid_init_and_tick_preserves_witness : (tick initState).Valid :=
  valid_init_and_tick_preserves.2 initState (by decide)

/-- C8: on a debounced falling edge the handler performs the fixed 20ms
delay and re-samples the line; the flag afterwards is the old flag OR-ed
with "the re-sampled level is 0", i.e. it is set exactly when the line is
still asserted, and it is never cleared (the handler writes no other
state: its result is only the delay and the flag). -/
theorem button_handler_flag (lineLevel : Nat) (p : Bool) :
    (button_handler lineLevel p).delayMs = 20 ∧
    (button_handler lineLevel p).pressed = (p || (lineLevel == 0)) := by
  refine ⟨rfl, ?_⟩
  by_cases h0 : lineLevel = 0 <;> cases p <;> simp [button_handler, h0]

/-- C10: whatever valid minute is displayed, `display_time` leaves the LED
off: every pulse ends with `led.value(0)` and nothing after the final pulse
turns the LED back on, matching the off state set at startup (line 38). -/
theorem display_time_leaves_led_off (h m : Nat) (_hm : m ≤ 59) :
    ledAfter (display_time h m) 0 = 0 := by
  unfold display_time
  by_cases h0 : h > 0 <;> by_cases q0 : m / 15 > 0 <;>
    by_cases r0 : m % 15 > 0 <;>
      simp [h0, q0, r0, ledAfter_append, ledAfter_flash_group,
        ledAfter_cons_sleep, ledAfter_nil, ite_self]

/-- C10 (witness): the LED is off after displaying the start time 5:43. -/
theorem display_time_leaves_led_off_witness :
    ledAfter (display_time 5 43) 0 = 0 :=
  display_time_leaves_led_off 5 43 (by decide)

/-- C2: from any valid state, one `tick` toggles `ampm` exactly when it
fires at `hour = 11, minute = 59, second = 59` (the 11→12 hour advance); in
particular `ampm` is unchanged on the 12→1 transition. -/
theorem tick_ampm_toggle_iff (s : ClockState) (hv : s.Valid) :
    ((tick s).ampm ≠ s.ampm ↔
      s.hour = 11 ∧ s.minute = 59 ∧ s.second = 59) ∧
    (s.hour = 12 → (tick s).ampm = s.ampm) := by
  obtain ⟨h1, h2, h3, h4⟩ := hv
  unfold tick
  by_cases c1 : s.second + 1 ≥ 60 <;> by_cases c2 : s.minute + 1 ≥ 60 <;>
    by_cases c3 : s.hour + 1 > 12 <;> by_cases c4 : s.hour = 11 <;>
      simp [c1, c2, c3, c4] <;> omega

/-- C2 (witness): the toggle fires at 11:59:59 PM. -/
theorem tick_ampm_toggle_iff_witness :
    ((tick ⟨11, 59, 59, true⟩).ampm ≠ (true : Bool) ↔
      (11 : Nat) = 11 ∧ (59 : Nat) = 59 ∧ (59 : Nat) = 59) ∧
    ((11 : Nat) = 12 → (tick ⟨11, 59, 59, true⟩).ampm = true) :=
  tick_ampm_toggle_iff ⟨11, 59, 59, true⟩ (by decide)

/-- C4: from any valid state with `second = 59`, one `tick` resets `second`
to 0 and advances `minute` by 1 modulo 60; when additionally `minute = 59`,
both `second` and `minute` reset to 0 and the hour advances, wrapping 12 to
1. -/
theorem tick_second59_cascade (s : ClockState) (hv : s.Valid)
    (h59 : s.second = 59) :
    (tick s).second = 0 ∧ (tick s).minute = (s.minute + 1) % 60 ∧
    (s.minute = 59 →
      (tick s).minute = 0 ∧
      (tick s).hour = if s.hour = 12 then 1 else s.hour + 1) := by
  obtain ⟨h1, h2, h3, h4⟩ := hv
  unfold tick
  by_cases c2 : s.minute + 1 ≥ 60 <;> by_cases c3 : s.hour + 1 > 12 <;>
    by_cases c4 : s.hour = 12 <;> simp [h59, c2, c3, c4] <;> omega

/-- C4 (witness): the full cascade at 12:59:59, wrapping the hour to 1. -/
theorem tick_second59_cascade_witness :
    (tick ⟨12, 59, 59, true⟩).second = 0 ∧
    (tick ⟨12, 59, 59, true⟩).minute = (59 + 1) % 60 ∧
    ((59 : Nat) = 59 →
      (tick ⟨12, 59, 59, true⟩).minute = 0 ∧
      (tick ⟨12, 59, 59, true⟩).hour =
        if (12 : Nat) = 12 then 1 else 12 + 1) :=
  tick_second59_cascade ⟨12, 59, 59, true⟩ (by decide) (by decide)

/-- A press raises the potential by at most one. -/
theorem potential_pressEvent (s : SchedState) :
    potential (pressEvent s) ≤ potential s + 1 := by
  rcases s with ⟨ph, irq, bp, d⟩
  unfold pressEvent potential
  cases irq <;> cases bp <;> simp
  split_ifs <;> omega

/-- A scheduler step never raises the potential: capturing a request moves
its unit from the flag to the playback, and completing a playback moves it
to the display count. -/
theorem potential_schedStep (s : SchedState) :
    potential (schedStep s) ≤ potential s := by
  rcases s with ⟨ph, irq, bp, d⟩
  unfold schedStep potential
  cases ph with
  | idle => cases bp <;> simp
  | servicing => cases bp <;> simp
  | awaitRelease => simp

/-- Running any event list bounds the potential by the initial potential
plus the number of presses in the list. -/
theorem potential_foldl (es : List Event) :
    ∀ s : SchedState,
      potential (es.foldl schedExec s) ≤ potential s + es.count Event.press := by
  induction es with
  | nil => intro s; simp
  | cons e es ih =>
      intro s
      have h := ih (schedExec s e)
      cases e with
      | press =>
          have hp := potential_pressEvent s
          simp only [List.foldl_cons, List.count_cons_self]
          calc potential (es.foldl schedExec (schedExec s Event.press))
              ≤ potential (pressEvent s) + es.count Event.press := h
            _ ≤ potential s + 1 + es.count Event.press := by omega
            _ = potential s + (es.count Event.press + 1) := by omega
      | step =>
          have hp := potential_schedStep s
          simp only [List.foldl_cons]
          rw [List.count_cons_of_ne (by simp)]
          calc potential (es.foldl schedExec (schedExec s Event.step))
              ≤ potential (schedStep s) + es.count Event.press := h
            _ ≤ potential s + es.count Event.press := by omega

/-- Outside the idle phase the IRQ is unregistered, for every state
reachable from one satisfying the same invariant. -/
theorem schedIrq_foldl (es : List Event) :
    ∀ s : SchedState, (s.phase = Phase.idle ∨ s.irqEnabled = false) →
      ((es.foldl schedExec s).phase = Phase.idle ∨
        (es.foldl schedExec s).irqEnabled = false) := by
  induction es with
  | nil =>
      intro s hs
      simp only [List.foldl_nil]
      exact hs
  | cons e es ih =>
      intro s hs
      refine ih (schedExec s e) ?_
      cases e with
      | press =>
          rcases s with ⟨ph, irq, bp, d⟩
          unfold schedExec pressEvent
          cases irq with
          | false => exact hs
          | true =>
              simp at hs ⊢
              exact hs
      | step =>
          rcases s with ⟨ph, irq, bp, d⟩
          unfold schedExec schedStep
          cases ph with
          | idle => cases bp <;> simp
          | servicing =>
              simp only [] at hs ⊢
              simp at hs ⊢
              exact hs
          | awaitRelease => simp

/-- A step taken in idle with a pending request captures it: the flag is
cleared, the IRQ unregistered, playback entered; the following step runs
exactly one display. -/
theorem schedStep_idle_pressed (s : SchedState) (hph : s.phase = Phase.idle)
    (hbp : s.button_pressed = true) :
    schedStep s = ⟨Phase.servicing, false, false, s.displays⟩ ∧
    (schedStep (schedStep s)).displays = s.displays + 1 := by
  rcases s with ⟨ph, irq, bp, d⟩
  simp only [] at hph hbp
  subst hph; subst hbp
  exact ⟨rfl, rfl⟩

/-- C9: for every event sequence from startup, (a) whenever the scheduler is
in `servicing` or `awaitRelease` the button IRQ is unregistered and a press
leaves the state unchanged, hence produces no additional display; (b) the
number of completed displays never exceeds the number of presses, so each
set of the flag leads to at most one display; (c) a press pending in idle is
captured exactly once: the very next step clears the flag atomically with
unregistering the IRQ, and the step after that performs exactly one
display. -/
theorem sched_press_safety (es : List Event) :
    ((schedRun es).phase ≠ Phase.idle →
      (schedRun es).irqEnabled = false ∧
        pressEvent (schedRun es) = schedRun es) ∧
    (schedRun es).displays ≤ es.count Event.press ∧
    ((schedRun es).phase = Phase.idle → (schedRun es).button_pressed = true →
      schedStep (schedRun es) =
        ⟨Phase.servicing, false, false, (schedRun es).displays⟩ ∧
      (schedStep (schedStep (schedRun es))).displays =
        (schedRun es).displays + 1) := by
  have hirq := schedIrq_foldl es schedInit (Or.inl rfl)
  have hpot := potential_foldl es schedInit
  unfold schedRun
  refine ⟨?_, ?_, ?_⟩
  · intro hph
    have hfalse : (es.foldl schedExec schedInit).irqEnabled = false := by
      rcases hirq with h | h
      · exact absurd h hph
      · exact h
    refine ⟨hfalse, ?_⟩
    unfold pressEvent
    rw [hfalse]
    simp
  · have hd : (es.foldl schedExec schedInit).displays ≤
        potential (es.foldl schedExec schedInit) := by
      unfold potential
      split_ifs <;> omega
    have hp0 : potential schedInit = 0 := rfl
    omega
  · intro hph hbp
    exact schedStep_idle_pressed _ hph hbp

/-- C9 (witness): after a press and its capturing step the IRQ is off and a
further press is inert; after just a press, the next step captures it and
the step after that performs the single display. -/
theorem sched_press_safety_witness :
    ((schedRun [Event.press, Event.step]).irqEnabled = false ∧
      pressEvent (schedRun [Event.press, Event.step]) =
        schedRun [Event.press, Event.step]) ∧
    (schedStep (schedRun [Event.press]) =
        (⟨Phase.servicing, false, false,
          (schedRun [Event.press]).displays⟩ : SchedState) ∧
      (schedStep (schedStep (schedRun [Event.press]))).displays =
        (schedRun [Event.press]).displays + 1) :=
  ⟨(sched_press_safety [Event.press, Event.step]).1 (by decide),
    (sched_press_safety [Event.press]).2.2 (by decide) (by decide)⟩

end OneLedWatch
